import Mathlib

/-!
Verification development for the `mass-fragment-index` repository: a
mass-tolerance search index for mass-spectrometry fragment ions together
with a columnar binary storage protocol.

The Rust sources under `src/storage/util.rs` and `src/fragment.rs` are
embedded shallowly below.  Masses (`f32` in the source, used as exact
data) are modelled as rationals; machine integers (`u32`, `u64`, `u16`,
`usize`) as naturals; fallible operations return `Except`/`Option`; the
process-terminating outcomes (`panic` from byte slicing, `todo!()`) are
modelled as distinguished constructors.  Components of the repository
whose sources are not available (the in-memory `SearchIndex` core, the
`Tolerance` type) are modelled from the specification, as marked in the
doc comments.
-/

namespace MassFragmentIndex

/-! ## Fragment-name grammar (from `src/fragment.rs`) -/

/-- A Rust `&str` modelled as its UTF-8 byte sequence; byte slicing (and
its panics on non-boundary indices) is what `FragmentName::from_str`
performs, so the byte level is the faithful one. -/
abbrev ByteStr := List Nat

/-- The closed set of fragment series classifiers, from `enum FragmentSeries`. -/
inductive FragmentSeries where
  | b | y | c | z | a | x
  | Precursor | PeptideY | Oxonium | Internal | Unknown
deriving DecidableEq, Repr

/-- Parsing errors of the fragment-name grammar, from
`enum FragmentSeriesParsingError`; each payload is the offending substring
(as bytes). -/
inductive FragmentSeriesParsingError where
  | Empty : FragmentSeriesParsingError
  | UnknownSeries : ByteStr → FragmentSeriesParsingError
  | InvalidOrdinal : ByteStr → FragmentSeriesParsingError
deriving DecidableEq, Repr

/-- Rust `struct FragmentName(pub FragmentSeries, pub u16)`. -/
structure FragmentName where
  series : FragmentSeries
  ordinal : Nat
deriving DecidableEq, Repr

/-- Outcome of running `FragmentName::from_str`: a value, a returned
error, or a process panic (from slicing a `&str` at a non-character
boundary). -/
inductive ParseOutcome where
  | ok : FragmentName → ParseOutcome
  | err : FragmentSeriesParsingError → ParseOutcome
  | panicked : ParseOutcome
deriving DecidableEq, Repr

/-- ASCII decimal digit test, as used by the Rust `u16` parser of `from_str`. -/
def isAsciiDigit (b : Nat) : Bool := 48 ≤ b && b ≤ 57

/-- Decimal value of a digit string. -/
def digitsToNat (bs : ByteStr) : Nat := bs.foldl (fun acc b => acc * 10 + (b - 48)) 0

/-- The Rust call `str::parse::<u16>()`: optional leading `+`, then one or more
ASCII digits, rejecting overflow past `u16::MAX`. -/
def parseU16 (bs : ByteStr) : Option Nat :=
  let digits := if bs.head? = some 43 then bs.tail else bs
  if digits.isEmpty then none
  else if digits.all isAsciiDigit then
    if digitsToNat digits ≤ 65535 then some (digitsToNat digits) else none
  else none

/-- A UTF-8 continuation byte (`0x80..0xBF`). -/
def isContinuationByte (b : Nat) : Bool := 128 ≤ b && b < 192

/-- Byte index 1 is a character boundary of `s`: either `s` is a single
byte, or the byte at index 1 does not continue a multi-byte character.
Rust panics when `&s[0..1]` / `&s[1..]` is taken at a non-boundary. -/
def charBoundaryAtOne (s : ByteStr) : Bool :=
  s.length = 1 || !(isContinuationByte (s.getD 1 0))

/-- The series letter recognised from the one-byte slice `&s[0..1]`. -/
def seriesOfByte (b : Nat) : Option FragmentSeries :=
  if b = 98 then some .b
  else if b = 121 then some .y
  else if b = 99 then some .c
  else if b = 122 then some .z
  else if b = 97 then some .a
  else if b = 120 then some .x
  else none

/-- Source `FragmentName::from_str`, `src/fragment.rs` lines 48-70: empty
input errors out; then the slices `&s[0..1]` and `&s[1..]` are taken
(panicking if byte 1 is not a character boundary); the one-byte head
selects the series or yields `UnknownSeries`; the remainder parses as a
`u16` ordinal or yields `InvalidOrdinal`. -/
def FragmentName.from_str (s : ByteStr) : ParseOutcome :=
  if s.length = 0 then .err .Empty
  else if !(charBoundaryAtOne s) then .panicked
  else match seriesOfByte (s.getD 0 0) with
    | some ser =>
      match parseU16 (s.drop 1) with
      | some n => .ok ⟨ser, n⟩
      | none => .err (.InvalidOrdinal (s.drop 1))
    | none => .err (.UnknownSeries (s.take 1))

/-- C4: `from_str "b2"` is `Ok` with series `b` and ordinal 2; `""` gives
the `Empty` error; `"q5"` gives `UnknownSeries "q"`; `"b"` gives
`InvalidOrdinal ""`. -/
theorem from_str_cases :
    FragmentName.from_str [98, 50] = .ok ⟨.b, 2⟩ ∧
    FragmentName.from_str [] = .err .Empty ∧
    FragmentName.from_str [113, 53] = .err (.UnknownSeries [113]) ∧
    FragmentName.from_str [98] = .err (.InvalidOrdinal []) := by
  refine ⟨?_, ?_, ?_, ?_⟩ <;> decide

/-- C10: on `"β2"` (UTF-8 bytes `[0xCE, 0xB2, 0x32]`), whose first
character occupies two bytes, `from_str` panics rather than returning a
parsing error: byte index 1 is not a character boundary. -/
theorem from_str_multibyte_panics :
    FragmentName.from_str [206, 178, 50] = .panicked ∧
    (∀ e, FragmentName.from_str [206, 178, 50] ≠ .err e) ∧
    (∀ f, FragmentName.from_str [206, 178, 50] ≠ .ok f) := by
  refine ⟨by decide, ?_, ?_⟩ <;> intro z h <;> rw [show FragmentName.from_str [206, 178, 50] = .panicked from by decide] at h <;> exact ParseOutcome.noConfusion h

/-! ## Mass, tolerance and the sortable capability

The `Tolerance` type, the `IndexSortable` trait and the in-memory
`SearchIndex` core live in repository files that are not available here;
they are modelled from the specification (§3, §4.1-§4.3). -/

/-- Modelled from the spec: the mass scalar (`f32` in the source, used as
exact data) as a rational. -/
abbrev MassType := ℚ

/-- Modelled from the spec (§3): a half-open range `[start, stop)` over
parent positions (the source calls the upper bound `end`). -/
structure Interval where
  start : Nat
  stop : Nat
deriving DecidableEq, Repr

/-- Modelled from the spec (§4.1): a tolerance is relative
(parts-per-million of the query mass) or absolute (fixed mass units). -/
inductive Tolerance where
  | PPM : ℚ → Tolerance
  | Da : ℚ → Tolerance
deriving DecidableEq, Repr

/-- Modelled from the spec (§4.1): the half-width Δ of the matching
window `[m - Δ, m + Δ]`: `Δ = m·t/1e6` for relative, `Δ = t` for
absolute. -/
def Tolerance.delta : Tolerance → MassType → ℚ
  | .PPM t, m => m * t / 1000000
  | .Da t, _ => t

/-- Modelled from the spec (§4.2): the sortable-entry capability
(`IndexSortable` in `src/sort.rs`, not available): expose a mass and an
owning-parent identifier. -/
class IndexSortable (T : Type) where
  mass : T → MassType
  parent_id : T → Nat

export IndexSortable (mass parent_id)

/-- Rust `struct Fragment` from `src/fragment.rs`. -/
structure Fragment where
  mass : MassType
  parent_id : Nat
  series : FragmentSeries
  ordinal : Nat
deriving DecidableEq, Repr

instance : IndexSortable Fragment := ⟨Fragment.mass, Fragment.parent_id⟩

instance : Inhabited Fragment := ⟨⟨0, 0, .Unknown, 0⟩⟩

/-- Modelled from the spec (§3): a parent (precursor) record with a mass,
an integer identity, two caller-defined numeric fields and a sequence
string (constructor shape as used by the test of the repository). -/
structure Peptide where
  mass : MassType
  id : Nat
  protein_id : Nat
  start_position : Nat
  sequence : String
deriving DecidableEq, Repr

instance : IndexSortable Peptide := ⟨Peptide.mass, Peptide.id⟩

instance : Inhabited Peptide := ⟨⟨0, 0, 0, 0, ""⟩⟩

/-! ## The in-memory search index (modelled from the spec, §3/§4.3) -/

/-- Modelled from the spec (§4.3): the two entry orderings `sort` can
establish. -/
inductive SortType where
  | ByMass | ByParentId
deriving DecidableEq, Repr

/-- Bin identifier of a mass: `floor(mass × bins_per_dalton)` (spec §3). -/
def binOf (bpd : Nat) (m : MassType) : ℤ := ⌊m * bpd⌋

/-- Number of bins held by an index of the given resolution and maximum
mass: bin indices run from `0` to `floor(max_item_mass × bins_per_dalton)`
inclusive (spec §3 envelope invariant). -/
def totalBins (bpd : Nat) (maxMass : MassType) : Nat := (binOf bpd maxMass).toNat + 1

/-- Modelled from the spec (§3): the search index owns the ordered parent
sequence and a bin-partitioned entry collection; the mapping from bin
identifier to entry sequence is a dense vector indexed by bin id. -/
structure SearchIndex (T P : Type) where
  bins : List (List T)
  parents : List P
  bins_per_dalton : Nat
  max_item_mass : MassType
deriving DecidableEq

/-- Modelled from the spec: an index with the given resolution and
maximum mass and no content (`SearchIndex::empty` in the test). -/
def SearchIndex.empty (T P : Type) (bpd : Nat) (maxMass : MassType) : SearchIndex T P :=
  ⟨(List.range (totalBins bpd maxMass)).map (fun _ => []), [], bpd, maxMass⟩

/-- Modelled from the spec (§4.3): `add` appends the entry to the bin
determined by `floor(entry.mass × bins_per_dalton)`. -/
def SearchIndex.add {T P : Type} [IndexSortable T] (idx : SearchIndex T P) (e : T) :
    SearchIndex T P :=
  let b := (binOf idx.bins_per_dalton (mass e)).toNat
  { idx with bins := idx.bins.set b (idx.bins.getD b [] ++ [e]) }

/-- Modelled from the spec (§4.3): `add_parent` appends to the parent
sequence. -/
def SearchIndex.add_parent {T P : Type} (idx : SearchIndex T P) (p : P) : SearchIndex T P :=
  { idx with parents := idx.parents ++ [p] }

/-- Source `num_entries`: total entry count across all bins (spec §4.3). -/
def SearchIndex.num_entries {T P : Type} (idx : SearchIndex T P) : Nat :=
  (idx.bins.map List.length).sum

/-- All entries of the index, bin by bin. -/
def SearchIndex.entriesList {T P : Type} (idx : SearchIndex T P) : List T :=
  idx.bins.flatMap id

/-- Comparison key used when sorting entries (spec §4.3): ascending mass
or ascending parent identifier. -/
def sortKeyLe {T : Type} [IndexSortable T] (mode : SortType) (a b : T) : Bool :=
  match mode with
  | .ByMass => decide (mass a ≤ mass b)
  | .ByParentId => decide (parent_id a ≤ parent_id b)

/-- Modelled from the spec (§4.3): `sort` reorders entries within each
bin by the chosen key and reorders the parent sequence by mass (the
test of the repository relies on parent-range lookups after sorting in either
mode). -/
def SearchIndex.sort {T P : Type} [IndexSortable T] [IndexSortable P]
    (idx : SearchIndex T P) (mode : SortType) : SearchIndex T P :=
  { idx with
    bins := idx.bins.map (fun bin => bin.mergeSort (sortKeyLe mode))
    parents := idx.parents.mergeSort (sortKeyLe SortType.ByMass) }

/-- Scan of one candidate bin (spec §4.3 `search`): skip to the first
entry with mass ≥ window-low, take entries while mass ≤ window-high, and
apply the exact distance test to each candidate. -/
def searchScanBin {T : Type} [IndexSortable T] (lo hi m d : ℚ) (filt : Option Interval)
    (bin : List T) : List T :=
  ((bin.dropWhile (fun e => decide (mass e < lo))).takeWhile
      (fun e => decide (mass e ≤ hi))).filter
    (fun e =>
      decide (|mass e - m| ≤ d) &&
        match filt with
        | some iv => decide (iv.start ≤ parent_id e) && decide (parent_id e < iv.stop)
        | none => true)

/-- Modelled from the spec (§4.3): `search` computes the tolerance
window, scans every bin whose identifier the window can overlap (the
window may span a bin boundary), and within each bin performs the
bounded scan with the exact distance test, optionally filtering by a
parent-position interval. -/
def SearchIndex.search {T P : Type} [IndexSortable T] (idx : SearchIndex T P)
    (m : MassType) (tol : Tolerance) (parent_interval : Option Interval) : List T :=
  let d := tol.delta m
  let lo := m - d
  let hi := m + d
  let b0 := (binOf idx.bins_per_dalton lo).toNat
  let b1 := min (binOf idx.bins_per_dalton hi).toNat (idx.bins.length - 1)
  (List.range' b0 (b1 + 1 - b0)).flatMap
    (fun b => searchScanBin lo hi m d parent_interval (idx.bins.getD b []))

/-! ## Columnar archive protocol (from `src/storage/util.rs`)

A columnar record batch is modelled as its decoded content: a segment
identifier paired with the list of instances it holds (the contract of
the protocol is that `from_batch` recovers exactly what `to_batch` encoded,
spec §4.4). -/

/-- Rust `struct IndexMetadata` from `src/storage/util.rs` lines 54-58. -/
structure IndexMetadata where
  bins_per_dalton : Nat
  max_item_mass : MassType
deriving DecidableEq, Repr

/-- The closed set of compression codecs of the columnar engine
(`parquet::basic::Compression`), levels carried by the leveled codecs. -/
inductive Compression where
  | uncompressed
  | snappy
  | gzip : Nat → Compression
  | lzo
  | brotli : Nat → Compression
  | lz4
  | zstd : Int → Compression
  | lz4Raw
deriving DecidableEq, Repr

/-- A record batch of the entries archive: the segment identifier it was
tagged with and its decoded payload. -/
abbrev EntryBatch (T : Type) := Nat × List T

/-- The three on-disk artifacts produced by `IndexBinaryStorage::write`:
the metadata archive (plain JSON, written without compression settings
of the columnar engine), and the parents and entries archives, each a
compressed sequence of record batches. -/
structure WrittenArchives (T P : Type) where
  metaArchive : IndexMetadata
  parentsCompression : Compression
  parentsBatches : List (EntryBatch P)
  entriesCompression : Compression
  entriesBatches : List (EntryBatch T)
deriving DecidableEq

/-- Source `to_metadata` for the search index: the metadata archive records
`bins_per_dalton` and `max_item_mass` (spec §6). -/
def SearchIndex.to_metadata {T P : Type} (idx : SearchIndex T P) : IndexMetadata :=
  ⟨idx.bins_per_dalton, idx.max_item_mass⟩

/-- The enumeration of `IndexBinaryStorage::write_entries` (lines
184-186): the `i`-th bin yielded by `iter_entries` becomes a batch tagged
with segment id `i`. -/
def writeEntriesAux {T : Type} : Nat → List (List T) → List (EntryBatch T)
  | _, [] => []
  | i, bin :: rest => (i, bin) :: writeEntriesAux (i + 1) rest

/-- Source `IndexBinaryStorage::write_entries` (lines 173-190): one batch per
bin, in the internal bin order of the index, segment id = enumeration index. -/
def SearchIndex.write_entries {T P : Type} (idx : SearchIndex T P) : List (EntryBatch T) :=
  writeEntriesAux 0 idx.bins

/-- Source `IndexBinaryStorage::write` (lines 192-207): defaulting of the
compression level to ZSTD at level 9, then metadata, parents (a single
batch with segment id 0, lines 156-171) and entries archives in order. -/
def SearchIndex.write {T P : Type} (idx : SearchIndex T P)
    (compression_level : Option Compression) : WrittenArchives T P :=
  let c := compression_level.getD (Compression.zstd 9)
  { metaArchive := idx.to_metadata
    parentsCompression := c
    parentsBatches := [(0, idx.parents)]
    entriesCompression := c
    entriesBatches := idx.write_entries }

/-- The read-side grouping of decoded `(entry, segment id)` pairs (lines
255-268): `bin_collector.entry(segment_id).or_default().push(entry)`,
i.e. order-preserving grouping by segment id. -/
def collectBins {T : Type} (pairs : List (T × Nat)) (k : Nat) : List T :=
  pairs.filterMap (fun p => if p.2 = k then some p.1 else none)

/-- Modelled from the spec (§4.4): `from_components` for the search
index assembles a new instance from metadata, the parent sequence and the
segment-id grouping, trusting the recorded segment ids as bin indices and
sizing the bin vector from the metadata envelope. -/
def SearchIndex.from_components {T P : Type} (metadata : IndexMetadata) (parents : List P)
    (entries : Nat → List T) : SearchIndex T P :=
  ⟨(List.range (totalBins metadata.bins_per_dalton metadata.max_item_mass)).map entries,
   parents, metadata.bins_per_dalton, metadata.max_item_mass⟩

/-- Source `IndexBinaryStorage::read` (lines 217-272): decode the metadata
archive, concatenate the parent batches in file order, group the decoded
entry pairs by segment id, and assemble via `from_components`. -/
def SearchIndex.read {T P : Type} (w : WrittenArchives T P) : SearchIndex T P :=
  let parents := w.parentsBatches.flatMap (fun b => b.2)
  let pairs := w.entriesBatches.flatMap (fun b => b.2.map (fun e => (e, b.1)))
  SearchIndex.from_components w.metaArchive parents (collectBins pairs)

/-! ## The on-disk lazy handle (from `src/storage/util.rs` lines 275-367) -/

/-- Error kinds of the modelled `std::io::Error`. -/
inductive FsErrorKind where
  | notFound
  | other
deriving DecidableEq, Repr

/-- A modelled `std::io::Error`: a kind and a message string. -/
structure FsError where
  kind : FsErrorKind
  message : String
deriving DecidableEq, Repr

/-- The observable state of an index directory at open time: which of the
root and the three archive files exist, and the decodable metadata
content. -/
structure DirState where
  rootExists : Bool
  metaExists : Bool
  parentsExists : Bool
  entriesExists : Bool
  metaContent : IndexMetadata
deriving DecidableEq, Repr

/-- Rust `struct SearchIndexOnDisk` (lines 275-286): the root path and the
eagerly decoded metadata; parents and entries stay on disk. -/
structure SearchIndexOnDisk where
  root : String
  metadata : IndexMetadata
deriving DecidableEq, Repr

/-- Source `SearchIndexOnDisk::new` (lines 295-329): four existence checks in
order, each failing with a distinct not-found error naming the missing
artifact, then eager decoding of only the metadata archive. -/
def SearchIndexOnDisk.new (fs : DirState) (path : String) : Except FsError SearchIndexOnDisk :=
  if !fs.rootExists then
    .error ⟨.notFound, "Index root " ++ path ++ " not found"⟩
  else if !fs.metaExists then
    .error ⟨.notFound, "Index metadata " ++ path ++ " not found"⟩
  else if !fs.parentsExists then
    .error ⟨.notFound, "Index parent file " ++ path ++ " not found"⟩
  else if !fs.entriesExists then
    .error ⟨.notFound, "Index search target file " ++ path ++ " not found"⟩
  else
    .ok ⟨path, fs.metaContent⟩

/-- Outcome of calling a declared-but-unimplemented method: `todo!()`
unconditionally terminates the process. -/
inductive TodoResult (A : Type) where
  | panicked : TodoResult A
deriving DecidableEq, Repr

/-- Source `SearchIndexOnDisk::parents_for` (lines 349-353): the body is
`todo!()`. -/
def SearchIndexOnDisk.parents_for (_self : SearchIndexOnDisk) (_mass : MassType)
    (_error_tolerance : Tolerance) : TodoResult Interval :=
  .panicked

/-- Source `SearchIndexOnDisk::parents_for_range` (lines 355-366): the body is
`todo!()`. -/
def SearchIndexOnDisk.parents_for_range (_self : SearchIndexOnDisk) (_low _high : MassType)
    (_error_tolerance : Tolerance) : TodoResult Interval :=
  .panicked

/-! ## Round-trip helper lemmas -/

/-- Grouping by segment id distributes over concatenation of the decoded
pair stream. -/
theorem collectBins_append {T : Type} (l₁ l₂ : List (T × Nat)) (k : Nat) :
    collectBins (l₁ ++ l₂) k = collectBins l₁ k ++ collectBins l₂ k := by
  simp [collectBins, List.filterMap_append]

/-- Grouping the pairs decoded from a single batch tagged `i`: key `i`
recovers the whole payload, any other key nothing. -/
theorem collectBins_batch {T : Type} (bin : List T) (i k : Nat) :
    collectBins (bin.map (fun e => (e, i))) k = if i = k then bin else [] := by
  by_cases h : i = k
  · subst h
    simp [collectBins, List.filterMap_map, Function.comp_def]
  · simp [collectBins, List.filterMap_map, Function.comp_def, h]

/-- Grouping the pairs decoded from the batches `write_entries` produced
starting at segment id `s` recovers exactly the bin at position `k - s`. -/
theorem collectBins_writeEntriesAux {T : Type} (bins : List (List T)) (s k : Nat) :
    collectBins
        ((writeEntriesAux s bins).flatMap (fun b => b.2.map (fun e => (e, b.1)))) k
      = if s ≤ k then bins.getD (k - s) [] else [] := by
  induction bins generalizing s with
  | nil => simp [writeEntriesAux, collectBins]
  | cons bin rest ih =>
    rw [writeEntriesAux, List.flatMap_cons, collectBins_append, collectBins_batch, ih]
    rcases Nat.lt_trichotomy s k with h | h | h
    · have h1 : ¬ s = k := Nat.ne_of_lt h
      have h2 : s + 1 ≤ k := h
      have h3 : s ≤ k := Nat.le_of_lt h
      have h4 : k - s = (k - (s + 1)) + 1 := by omega
      simp [h1, h2, h3, h4]
    · subst h
      simp [Nat.not_succ_le_self]
    · have h1 : ¬ s = k := (Nat.ne_of_lt h).symm
      have h2 : ¬ s + 1 ≤ k := by omega
      have h3 : ¬ s ≤ k := by omega
      simp [h1, h2, h3]

/-- Reading a list back out of position-indexed access reproduces it. -/
theorem map_range_getD {T : Type} (l : List (List T)) :
    (List.range l.length).map (fun k => l.getD k []) = l := by
  apply List.ext_getElem
  · simp
  · intro n h₁ h₂
    simp only [List.getElem_map, List.getElem_range]
    exact List.getD_eq_getElem l [] h₂

/-- The archive round trip reproduces the index exactly, for any
compression choice, whenever the bin vector of the index has the size the
metadata envelope prescribes (as every index built by `empty`/`add`
does). -/
theorem read_write_eq {T P : Type} (idx : SearchIndex T P) (c : Option Compression)
    (hwf : idx.bins.length = totalBins idx.bins_per_dalton idx.max_item_mass) :
    SearchIndex.read (idx.write c) = idx := by
  unfold SearchIndex.read SearchIndex.write SearchIndex.from_components
  simp only [SearchIndex.to_metadata, SearchIndex.write_entries]
  have hbins :
      (List.range (totalBins idx.bins_per_dalton idx.max_item_mass)).map
          (collectBins
            ((writeEntriesAux 0 idx.bins).flatMap (fun b => b.2.map (fun e => (e, b.1)))))
        = idx.bins := by
    rw [← hwf]
    have : ∀ k, collectBins
        ((writeEntriesAux 0 idx.bins).flatMap (fun b => b.2.map (fun e => (e, b.1)))) k
        = idx.bins.getD k [] := by
      intro k
      rw [collectBins_writeEntriesAux]
      simp
    calc (List.range idx.bins.length).map
          (collectBins
            ((writeEntriesAux 0 idx.bins).flatMap (fun b => b.2.map (fun e => (e, b.1)))))
        = (List.range idx.bins.length).map (fun k => idx.bins.getD k []) :=
          List.map_congr_left (fun a _ => this a)
      _ = idx.bins := map_range_getD idx.bins
  rw [hbins]
  simp

/-- A fragment of mass 3/2 used by the concrete witnesses; at one bin per
dalton it lands in bin 1. -/
def sampleFragment : Fragment := ⟨3/2, 0, .b, 2⟩

/-- A parent record used by the concrete witnesses. -/
def samplePeptide : Peptide := ⟨2, 0, 0, 0, "PEP"⟩

/-- A small concrete index: resolution one bin per dalton, maximum mass
2 (hence three bins), one parent, one fragment. -/
def sampleIndex : SearchIndex Fragment Peptide :=
  ((SearchIndex.empty Fragment Peptide 1 2).add_parent samplePeptide).add sampleFragment

/-- C1: writing an index with `IndexBinaryStorage::write` and reading the
directory back with `IndexBinaryStorage::read` yields an index with the
same number of parents and the same total entry count (`num_entries`). -/
theorem write_read_preserves_counts {T P : Type} (idx : SearchIndex T P)
    (c : Option Compression)
    (hwf : idx.bins.length = totalBins idx.bins_per_dalton idx.max_item_mass) :
    (SearchIndex.read (idx.write c)).parents.length = idx.parents.length ∧
    (SearchIndex.read (idx.write c)).num_entries = idx.num_entries := by
  rw [read_write_eq idx c hwf]
  exact ⟨rfl, rfl⟩

/-- Witness for C1: the round trip preserves both counts on the concrete
sample index. -/
theorem write_read_preserves_counts_witness :
    (SearchIndex.read (sampleIndex.write none)).parents.length =
        sampleIndex.parents.length ∧
    (SearchIndex.read (sampleIndex.write none)).num_entries = sampleIndex.num_entries :=
  write_read_preserves_counts sampleIndex none (by with_unfolding_all decide)

/-- C3: serialization does not migrate entries between bins: the round
trip reproduces the bin vector and the binning resolution, so every entry
of the reloaded index still sits in the bin `floor(mass × bins_per_dalton)`
it occupied at write time. -/
theorem roundtrip_bin_membership_stable {T P : Type} [IndexSortable T]
    (idx : SearchIndex T P) (c : Option Compression)
    (hwf : idx.bins.length = totalBins idx.bins_per_dalton idx.max_item_mass)
    (hinv : ∀ b < idx.bins.length, ∀ e ∈ idx.bins.getD b [],
      binOf idx.bins_per_dalton (mass e) = (b : ℤ)) :
    (SearchIndex.read (idx.write c)).bins = idx.bins ∧
    (SearchIndex.read (idx.write c)).bins_per_dalton = idx.bins_per_dalton ∧
    ∀ b < (SearchIndex.read (idx.write c)).bins.length,
      ∀ e ∈ (SearchIndex.read (idx.write c)).bins.getD b [],
        binOf (SearchIndex.read (idx.write c)).bins_per_dalton (mass e) = (b : ℤ) := by
  rw [read_write_eq idx c hwf]
  exact ⟨rfl, rfl, hinv⟩

/-- Witness for C3: on the concrete sample index the reloaded bin vector
is unchanged and the sample fragment is still classified into bin 1. -/
theorem roundtrip_bin_membership_stable_witness :
    (SearchIndex.read (sampleIndex.write none)).bins = sampleIndex.bins ∧
    binOf (SearchIndex.read (sampleIndex.write none)).bins_per_dalton
        (mass sampleFragment) = (1 : ℤ) := by
  have h := roundtrip_bin_membership_stable sampleIndex none
    (by with_unfolding_all decide) (by with_unfolding_all decide)
  exact ⟨h.1, h.2.2 1 (by with_unfolding_all decide) sampleFragment
    (by with_unfolding_all decide)⟩

/-- Lemma: `writeEntriesAux` yields one batch per bin. -/
theorem writeEntriesAux_length {T : Type} (bins : List (List T)) (s : Nat) :
    (writeEntriesAux s bins).length = bins.length := by
  induction bins generalizing s with
  | nil => rfl
  | cons bin rest ih => simp [writeEntriesAux, ih]

/-- The `i`-th batch of `writeEntriesAux` starting at `s` is the `i`-th
bin tagged with segment id `s + i`. -/
theorem writeEntriesAux_getElem? {T : Type} (bins : List (List T)) (s i : Nat) :
    (writeEntriesAux s bins)[i]? = bins[i]?.map (fun bin => (s + i, bin)) := by
  induction bins generalizing s i with
  | nil => simp [writeEntriesAux]
  | cons bin rest ih =>
    cases i with
    | zero => simp [writeEntriesAux]
    | succ j =>
      simp only [writeEntriesAux, List.getElem?_cons_succ, ih]
      rw [show s + 1 + j = s + (j + 1) from by omega]

/-- C5: `write_entries` writes exactly one columnar batch per bin,
iterating the bins in the internal bin order of the index, and the `i`-th
batch carries segment id `i` (the write-time enumeration index) together
with the entries of the `i`-th bin. -/
theorem write_entries_enumerates_bins {T P : Type} (idx : SearchIndex T P) :
    idx.write_entries.length = idx.bins.length ∧
    ∀ i : Nat, idx.write_entries[i]? = idx.bins[i]?.map (fun bin => (i, bin)) := by
  refine ⟨writeEntriesAux_length idx.bins 0, fun i => ?_⟩
  rw [SearchIndex.write_entries, writeEntriesAux_getElem?]
  simp

/-- C6: with `compression_level = None` both the parents archive and the
entries archive are written with ZSTD at level 9; a caller-supplied
compression value is used for both instead; and the metadata archive is
independent of the compression choice (nothing about compression is
recorded there). -/
theorem write_compression_selection {T P : Type} (idx : SearchIndex T P) :
    ((idx.write none).parentsCompression = Compression.zstd 9 ∧
     (idx.write none).entriesCompression = Compression.zstd 9) ∧
    (∀ c, (idx.write (some c)).parentsCompression = c ∧
          (idx.write (some c)).entriesCompression = c) ∧
    (∀ c₁ c₂, (idx.write c₁).metaArchive = (idx.write c₂).metaArchive) :=
  ⟨⟨rfl, rfl⟩, fun _ => ⟨rfl, rfl⟩, fun _ _ => rfl⟩

/-- Both sort keys are transitive comparisons. -/
theorem sortKeyLe_trans {T : Type} [IndexSortable T] (mode : SortType) :
    ∀ a b c : T, sortKeyLe mode a b = true → sortKeyLe mode b c = true →
      sortKeyLe mode a c = true := by
  intro a b c h1 h2
  cases mode <;> simp only [sortKeyLe, decide_eq_true_eq] at h1 h2 ⊢ <;>
    exact le_trans h1 h2

/-- Both sort keys are total comparisons. -/
theorem sortKeyLe_total {T : Type} [IndexSortable T] (mode : SortType) :
    ∀ a b : T, (sortKeyLe mode a b || sortKeyLe mode b a) = true := by
  intro a b
  cases mode <;> simp only [sortKeyLe, Bool.or_eq_true, decide_eq_true_eq] <;>
    exact le_total _ _

/-- Two indexes agreeing on all four fields are equal. -/
theorem SearchIndex.eq_of_fields {T P : Type} {s t : SearchIndex T P}
    (h1 : s.bins = t.bins) (h2 : s.parents = t.parents)
    (h3 : s.bins_per_dalton = t.bins_per_dalton)
    (h4 : s.max_item_mass = t.max_item_mass) : s = t := by
  cases s; cases t; simp_all

/-- C9: `sort` is idempotent: for every sort mode, sorting twice in a row
leaves the entry ordering within every bin and the parent sequence
identical to sorting once. -/
theorem sort_idempotent {T P : Type} [IndexSortable T] [IndexSortable P]
    (idx : SearchIndex T P) (mode : SortType) :
    (idx.sort mode).sort mode = idx.sort mode := by
  apply SearchIndex.eq_of_fields
  · show ((idx.sort mode).bins).map (fun bin => bin.mergeSort (sortKeyLe mode))
        = (idx.sort mode).bins
    simp only [SearchIndex.sort, List.map_map, Function.comp_def]
    apply List.map_congr_left
    intro bin _
    exact List.mergeSort_of_sorted
      (List.sorted_mergeSort (sortKeyLe_trans mode) (sortKeyLe_total mode) bin)
  · show ((idx.sort mode).parents).mergeSort (sortKeyLe SortType.ByMass)
        = (idx.sort mode).parents
    simp only [SearchIndex.sort]
    exact List.mergeSort_of_sorted
      (List.sorted_mergeSort (sortKeyLe_trans SortType.ByMass)
        (sortKeyLe_total SortType.ByMass) idx.parents)
  · rfl
  · rfl

/-- C7: each of the three required archive files missing at open time
makes `SearchIndexOnDisk::new` return a not-found error, with a distinct
message per missing artifact naming that artifact. -/
theorem new_missing_artifact_errors (fs : DirState) (path : String)
    (hroot : fs.rootExists = true) :
    (fs.metaExists = false →
      SearchIndexOnDisk.new fs path =
        .error ⟨.notFound, "Index metadata " ++ path ++ " not found"⟩) ∧
    (fs.metaExists = true → fs.parentsExists = false →
      SearchIndexOnDisk.new fs path =
        .error ⟨.notFound, "Index parent file " ++ path ++ " not found"⟩) ∧
    (fs.metaExists = true → fs.parentsExists = true → fs.entriesExists = false →
      SearchIndexOnDisk.new fs path =
        .error ⟨.notFound, "Index search target file " ++ path ++ " not found"⟩) ∧
    ("Index metadata " ++ path ++ " not found" ≠
      "Index parent file " ++ path ++ " not found") ∧
    ("Index metadata " ++ path ++ " not found" ≠
      "Index search target file " ++ path ++ " not found") ∧
    ("Index parent file " ++ path ++ " not found" ≠
      "Index search target file " ++ path ++ " not found") := by
  refine ⟨?_, ?_, ?_, ?_, ?_, ?_⟩
  · intro h
    simp [SearchIndexOnDisk.new, hroot, h]
  · intro h1 h2
    simp [SearchIndexOnDisk.new, hroot, h1, h2]
  · intro h1 h2 h3
    simp [SearchIndexOnDisk.new, hroot, h1, h2, h3]
  all_goals
    intro h
    have hlen := congrArg String.length h
    have e1 : ("Index metadata ").length = 15 := rfl
    have e2 : ("Index parent file ").length = 18 := rfl
    have e3 : ("Index search target file ").length = 25 := rfl
    have e4 : (" not found").length = 10 := rfl
    simp only [String.length_append, e1, e2, e3, e4] at hlen
    omega

/-- Witness for C7 at concrete directory states: each of the three
missing artifacts produces its own named not-found error. -/
theorem new_missing_artifact_errors_witness :
    SearchIndexOnDisk.new ⟨true, false, true, true, ⟨100, 10000⟩⟩ "d" =
      .error ⟨.notFound, "Index metadata " ++ "d" ++ " not found"⟩ ∧
    SearchIndexOnDisk.new ⟨true, true, false, true, ⟨100, 10000⟩⟩ "d" =
      .error ⟨.notFound, "Index parent file " ++ "d" ++ " not found"⟩ ∧
    SearchIndexOnDisk.new ⟨true, true, true, false, ⟨100, 10000⟩⟩ "d" =
      .error ⟨.notFound, "Index search target file " ++ "d" ++ " not found"⟩ ∧
    ("Index metadata " ++ "d" ++ " not found" ≠
      "Index parent file " ++ "d" ++ " not found") := by
  refine ⟨?_, ?_, ?_, ?_⟩
  · exact (new_missing_artifact_errors ⟨true, false, true, true, ⟨100, 10000⟩⟩ "d" rfl).1 rfl
  · exact (new_missing_artifact_errors ⟨true, true, false, true, ⟨100, 10000⟩⟩ "d"
      rfl).2.1 rfl rfl
  · exact (new_missing_artifact_errors ⟨true, true, true, false, ⟨100, 10000⟩⟩ "d"
      rfl).2.2.1 rfl rfl rfl
  · exact (new_missing_artifact_errors ⟨true, false, true, true, ⟨100, 10000⟩⟩ "d"
      rfl).2.2.2.1

/-- C8: on every successfully opened on-disk handle, the mass-range
parent lookups `parents_for` and `parents_for_range` are declared but not
implemented: any invocation terminates the process (`todo!()`). -/
theorem parents_for_terminates (fs : DirState) (path : String) (h : SearchIndexOnDisk)
    (_hopen : SearchIndexOnDisk.new fs path = .ok h) :
    (∀ m tol, h.parents_for m tol = .panicked) ∧
    (∀ lo hi tol, h.parents_for_range lo hi tol = .panicked) :=
  ⟨fun _ _ => rfl, fun _ _ _ => rfl⟩

/-- A concretely opened on-disk handle used by the C8 witness. -/
def sampleHandle : SearchIndexOnDisk := ⟨"idx", ⟨100, 10000⟩⟩

/-- Witness for C8 on a concretely opened handle. -/
theorem parents_for_terminates_witness :
    sampleHandle.parents_for 5 (.PPM 10) = .panicked ∧
    sampleHandle.parents_for_range 200 1200 (.PPM 10) = .panicked := by
  have h := parents_for_terminates ⟨true, true, true, true, ⟨100, 10000⟩⟩ "idx"
    sampleHandle rfl
  exact ⟨h.1 5 (.PPM 10), h.2 200 1200 (.PPM 10)⟩

/-! ## Tolerance-window correctness of `search` -/

/-- In a mass-sorted list, every member whose mass is within the upper
window bound survives the forward `takeWhile` scan. -/
theorem mem_takeWhile_of_sorted {T : Type} [IndexSortable T] (hi : ℚ) (e : T)
    (h2 : mass e ≤ hi) :
    ∀ l : List T, l.Pairwise (fun x y => mass x ≤ mass y) → e ∈ l →
      e ∈ l.takeWhile (fun x => decide (mass x ≤ hi)) := by
  intro l
  induction l with
  | nil =>
    intro _ he
    cases he
  | cons x rest ih =>
    intro hp he
    have hx : mass x ≤ hi := by
      rcases List.mem_cons.mp he with rfl | hr
      · exact h2
      · exact le_trans ((List.pairwise_cons.mp hp).1 e hr) h2
    rw [List.takeWhile_cons_of_pos (by simpa using hx)]
    rcases List.mem_cons.mp he with rfl | hr
    · exact List.mem_cons_self _ _
    · exact List.mem_cons_of_mem _ (ih (List.pairwise_cons.mp hp).2 hr)

/-- In a mass-sorted list, every member whose mass lies in `[lo, hi]` is
produced by the bounded scan (skip below `lo`, then take through `hi`):
the binary-search-then-scan step of `search` misses nothing. -/
theorem mem_scan_window {T : Type} [IndexSortable T] (lo hi : ℚ) (e : T)
    (h1 : lo ≤ mass e) (h2 : mass e ≤ hi) :
    ∀ l : List T, l.Pairwise (fun x y => mass x ≤ mass y) → e ∈ l →
      e ∈ (l.dropWhile (fun x => decide (mass x < lo))).takeWhile
            (fun x => decide (mass x ≤ hi)) := by
  intro l
  induction l with
  | nil =>
    intro _ he
    cases he
  | cons x rest ih =>
    intro hp he
    by_cases hx : mass x < lo
    · rw [List.dropWhile_cons_of_pos (by simpa using hx)]
      rcases List.mem_cons.mp he with rfl | hr
      · exact absurd h1 (not_le.mpr hx)
      · exact ih (List.pairwise_cons.mp hp).2 hr
    · rw [List.dropWhile_cons_of_neg (by simpa using hx)]
      exact mem_takeWhile_of_sorted hi e h2 (x :: rest) hp he

/-- Bin classification is monotone in the mass. -/
theorem binOf_mono (bpd : Nat) {x y : ℚ} (h : x ≤ y) : binOf bpd x ≤ binOf bpd y :=
  Int.floor_le_floor (mul_le_mul_of_nonneg_right h (by positivity))

/-- C2: tolerance correctness of `search` on a mass-sorted index whose
entries respect the bin invariant: an entry is returned by
`search(m, tol, None)` iff `|entry.mass - m| ≤ Δ(m, tol)` (`Δ = m·t/1e6`
for PPM, `Δ = t` for absolute), independent of which bin the entry
resides in — entries in a bin adjacent to that of the query are not missed when
the window spans a bin boundary. -/
theorem search_iff_within_tolerance {T P : Type} [IndexSortable T]
    (idx : SearchIndex T P) (m : MassType) (tol : Tolerance) (e : T)
    (hsort : ∀ b < idx.bins.length,
      (idx.bins.getD b []).Pairwise (fun x y => mass x ≤ mass y))
    (hinv : ∀ b < idx.bins.length, ∀ x ∈ idx.bins.getD b [],
      binOf idx.bins_per_dalton (mass x) = (b : ℤ))
    (he : e ∈ idx.entriesList) :
    e ∈ idx.search m tol none ↔ |mass e - m| ≤ tol.delta m := by
  constructor
  · intro hmem
    simp only [SearchIndex.search, List.mem_flatMap] at hmem
    obtain ⟨b, _, hscan⟩ := hmem
    have hpred := (List.mem_filter.mp hscan).2
    simp only [Bool.and_eq_true, decide_eq_true_eq] at hpred
    exact hpred.1
  · intro habs
    obtain ⟨bin, hbin_mem, he_bin⟩ := List.mem_flatMap.mp he
    simp only [id] at he_bin
    obtain ⟨b, hb, rfl⟩ := List.getElem_of_mem hbin_mem
    have hgetD : idx.bins.getD b [] = idx.bins[b] := List.getD_eq_getElem _ _ hb
    have hbinv := hinv b hb e (by rw [hgetD]; exact he_bin)
    have habs' := abs_le.mp habs
    have h1 : m - tol.delta m ≤ mass e := by linarith [habs'.1]
    have h2 : mass e ≤ m + tol.delta m := by linarith [habs'.2]
    have hlow : binOf idx.bins_per_dalton (m - tol.delta m) ≤ (b : ℤ) := by
      have h := binOf_mono idx.bins_per_dalton h1
      rwa [hbinv] at h
    have hhigh : (b : ℤ) ≤ binOf idx.bins_per_dalton (m + tol.delta m) := by
      have h := binOf_mono idx.bins_per_dalton h2
      rwa [hbinv] at h
    have hb0 : (binOf idx.bins_per_dalton (m - tol.delta m)).toNat ≤ b := by
      have h := Int.toNat_le_toNat hlow
      simpa using h
    have hb1 : b ≤ (binOf idx.bins_per_dalton (m + tol.delta m)).toNat := by
      have h := Int.toNat_le_toNat hhigh
      simpa using h
    simp only [SearchIndex.search, List.mem_flatMap]
    refine ⟨b, ?_, ?_⟩
    · rw [List.mem_range'_1]
      omega
    · apply List.mem_filter.mpr
      refine ⟨mem_scan_window (m - tol.delta m) (m + tol.delta m) e h1 h2 _
        (hsort b hb) (by rw [hgetD]; exact he_bin), ?_⟩
      simp [habs]

/-- Witness for C2: on the concrete sample index (sorted: all bins hold
at most one entry), the sample fragment is returned by a query at its own
mass with an absolute tolerance of 1 iff it lies within the window. -/
theorem search_iff_within_tolerance_witness :
    sampleFragment ∈ sampleIndex.search (3/2) (.Da 1) none ↔
      |mass sampleFragment - 3/2| ≤ Tolerance.delta (.Da 1) (3/2) :=
  search_iff_within_tolerance sampleIndex (3/2) (.Da 1) sampleFragment
    (by with_unfolding_all decide) (by with_unfolding_all decide)
    (by with_unfolding_all decide)

/-- Witness for C5 at the concrete sample index: three batches for three
bins, and batch 1 carries segment id 1 with bin 1. -/
theorem write_entries_enumerates_bins_witness :
    sampleIndex.write_entries.length = sampleIndex.bins.length ∧
    sampleIndex.write_entries[1]? = sampleIndex.bins[1]?.map (fun bin => (1, bin)) :=
  ⟨(write_entries_enumerates_bins sampleIndex).1,
   (write_entries_enumerates_bins sampleIndex).2 1⟩

/-- Witness for C6 at the concrete sample index and a concrete override. -/
theorem write_compression_selection_witness :
    ((sampleIndex.write none).parentsCompression = Compression.zstd 9 ∧
     (sampleIndex.write none).entriesCompression = Compression.zstd 9) ∧
    ((sampleIndex.write (some Compression.snappy)).parentsCompression =
        Compression.snappy ∧
     (sampleIndex.write (some Compression.snappy)).entriesCompression =
        Compression.snappy) ∧
    (sampleIndex.write none).metaArchive =
      (sampleIndex.write (some Compression.snappy)).metaArchive := by
  have h := write_compression_selection sampleIndex
  exact ⟨h.1, h.2.1 Compression.snappy, h.2.2 none (some Compression.snappy)⟩

/-- Witness for C9 at the concrete sample index and the by-mass mode. -/
theorem sort_idempotent_witness :
    (sampleIndex.sort SortType.ByMass).sort SortType.ByMass =
      sampleIndex.sort SortType.ByMass :=
  sort_idempotent sampleIndex SortType.ByMass

end MassFragmentIndex
